import Mathlib

/-!
Verification of the specstory-cloud-sdk-typescript request execution engine.

The definitions below are a shallow embedding of the TypeScript sources:
* `src/constants.ts` — retry constants;
* `src/errors.ts` — the typed-error hierarchy and `SDKError.fromResponse`;
* `src/http.ts` — `HTTPClient.performRequest` / `performRequestWithHeaders`
  retry loops, the GET deduplication in `request` / `requestWithHeaders`,
  and the `LRUCache` class (`src/cache.ts` in the package layout);
* `src/resources/sessions.ts` — `Sessions.read` conditional-read logic;
* `src/resources/graphql.ts` — `GraphQL.search` / `GraphQL.query` response
  handling.

JavaScript-specific behaviour is modelled explicitly: string truthiness
(`""` is falsy), number truthiness (`0` is falsy), `parseInt(s, 10)`
returning `NaN` (modelled as `none`).  Wall-clock values (`Date.now()`)
are passed as explicit `now` parameters; real time, promise scheduling and
the backoff sleep itself are not part of the pure model — a promise is
represented by the identifier of the operation that produced it, and the
retry loop is modelled as a recursion over a schedule of per-attempt
outcomes.
-/

/-- JavaScript truthiness of an optional string: `undefined` and `""` are
falsy.  Used wherever the source writes `if (someString) ...`. -/
def strTruthy : Option String → Bool
  | none => false
  | some s => !s.isEmpty

/-- Normalise an optional string the way `x || undefined` does in the
source: an empty string becomes `none`. -/
def jsStr : Option String → Option String
  | none => none
  | some s => if s.isEmpty then none else some s

/-- Value of a leading run of decimal digits, `none` when there is none
(the `NaN` case of `parseInt`). -/
def digitsVal (cs : List Char) : Option Nat :=
  match cs.takeWhile (·.isDigit) with
  | [] => none
  | ds => some (ds.foldl (fun a c => a * 10 + (c.toNat - 48)) 0)

/-- `parseInt(s, 10)`: skip leading whitespace, optional sign, then
leading decimal digits; trailing garbage is ignored; `none` models `NaN`. -/
def parseIntJS (s : String) : Option Int :=
  match s.toList.dropWhile (·.isWhitespace) with
  | '-' :: rest => (digitsVal rest).map (fun n => -(n : Int))
  | '+' :: rest => (digitsVal rest).map (fun n => (n : Int))
  | cs => (digitsVal cs).map (fun n => (n : Int))

/-- `ErrorContext` from `src/errors.ts`.  The wall-clock fields
(`timestamp`, `duration`) are not modelled; `retryCount` is the attempt
index recorded by the executor. -/
structure ErrorContext where
  method : Option String := none
  url : Option String := none
  requestId : Option String := none
  retryCount : Option Nat := none
deriving DecidableEq, Repr

/-- An item of the `errors` array of a GraphQL response
(`Array<{message: string; extensions?: any}>`); the untyped `extensions`
field is not modelled. -/
structure GqlErrorItem where
  message : String
deriving DecidableEq, Repr

/-- The typed-error hierarchy of `src/errors.ts` as a closed sum.  Each
constructor records the fields the corresponding class stores:
`rateLimit` carries the absolute retry-after instant (ms since epoch),
`server`/`unknown` carry the numeric status, `network` the name of the
underlying cause, `timeout` the configured timeout. -/
inductive SDKErr where
  | validation (message : String) (context : ErrorContext)
  | authentication (message : String) (context : ErrorContext)
  | permission (message : String) (context : ErrorContext)
  | notFound (message : String) (context : ErrorContext)
  | rateLimit (message : String) (retryAfter : Option Int) (context : ErrorContext)
  | server (message : String) (statusCode : Nat) (context : ErrorContext)
  | unknown (message : String) (statusCode : Nat) (context : ErrorContext)
  | network (message : String) (causeName : Option String) (context : ErrorContext)
  | timeout (message : String) (timeoutMs : Nat) (context : ErrorContext)
  | graphql (message : String) (errors : List GqlErrorItem) (context : ErrorContext)
deriving DecidableEq, Repr

/-- The `status` field each error class passes to the `SDKError`
constructor (`undefined` for network/timeout, `200` for GraphQL). -/
def SDKErr.statusOf : SDKErr → Option Nat
  | .validation _ _ => some 400
  | .authentication _ _ => some 401
  | .permission _ _ => some 403
  | .notFound _ _ => some 404
  | .rateLimit _ _ _ => some 429
  | .server _ s _ => some s
  | .unknown _ s _ => some s
  | .network _ _ _ => none
  | .timeout _ _ _ => none
  | .graphql _ _ _ => some 200

/-- The `context` stored on the error. -/
def SDKErr.contextOf : SDKErr → ErrorContext
  | .validation _ c => c
  | .authentication _ c => c
  | .permission _ c => c
  | .notFound _ c => c
  | .rateLimit _ _ c => c
  | .server _ _ c => c
  | .unknown _ _ c => c
  | .network _ _ c => c
  | .timeout _ _ c => c
  | .graphql _ _ c => c

/-- The `retryAfter` field of a `RateLimitError` (absent on every other
variant). -/
def SDKErr.retryAfterOf : SDKErr → Option Int
  | .rateLimit _ r _ => r
  | _ => none

/-- Case-normalised response-header lookup (`Headers.get` returns the
value for the lowercased name; header names are modelled as already
lowercase). -/
def headersGet (headers : List (String × String)) (name : String) : Option String :=
  (headers.find? (fun p => p.1 == name)).map (·.2)

/-- The `retryAfter` computation of the `RateLimitError` constructor:
`retryAfterSeconds ? new Date(Date.now() + retryAfterSeconds * 1000) :
undefined`.  JavaScript number truthiness makes `0` (and `NaN`, already
`none` here) fall to `undefined`. -/
def rateLimitRetryAfter (now : Int) (seconds : Option Int) : Option Int :=
  match seconds with
  | some s => if s = 0 then none else some (now + s * 1000)
  | none => none

/-- The `errorContext` that `SDKError.fromResponse` builds: the
`x-request-id` response header when present and non-empty
(`requestId || undefined`), else the request id already in the context
(`|| context?.requestId`). -/
def classifiedCtx (headers : List (String × String)) (context : ErrorContext) : ErrorContext :=
  { context with
    requestId := (jsStr (headersGet headers "x-request-id")).orElse
      (fun _ => context.requestId) }

/-- The seconds value `fromResponse` passes to the `RateLimitError`
constructor: `retryAfter ? parseInt(retryAfter, 10) : undefined` (an
absent or empty header is falsy; a non-numeric header is `NaN`,
modelled as `none`). -/
def retryAfterSeconds (headers : List (String × String)) : Option Int :=
  match headersGet headers "retry-after" with
  | some s => if s.isEmpty then none else parseIntJS s
  | none => none

/-- `SDKError.fromResponse` from `src/errors.ts`: deterministic mapping
from status code to error variant (the `switch` written as an if-chain;
the shared `500 | 502 | 503 | 504` case is the disjunction).  `now` is
`Date.now()` at classification time (ms since epoch). -/
def fromResponse (status : Nat) (headers : List (String × String)) (context : ErrorContext)
    (now : Int) : SDKErr :=
  let errorContext := classifiedCtx headers context
  if status = 400 then .validation "The request was invalid" errorContext
  else if status = 401 then .authentication "Invalid API key" errorContext
  else if status = 403 then
    .permission "You do not have permission to access this resource" errorContext
  else if status = 404 then .notFound "The requested resource does not exist" errorContext
  else if status = 429 then
    .rateLimit "Rate limit exceeded" (rateLimitRetryAfter now (retryAfterSeconds headers))
      errorContext
  else if status = 500 ∨ status = 502 ∨ status = 503 ∨ status = 504 then
    .server ("Server error: " ++ toString status) status errorContext
  else .unknown ("Unexpected error: " ++ toString status) status errorContext

/-- `IDEMPOTENT_METHODS` from `src/constants.ts`. -/
def IDEMPOTENT_METHODS : List String := ["GET", "PUT", "DELETE", "HEAD"]

/-- `RETRY_STATUS_CODES` from `src/constants.ts`. -/
def RETRY_STATUS_CODES : List Nat := [408, 429, 500, 502, 503, 504]

/-- `DEFAULT_MAX_RETRIES` from `src/constants.ts`. -/
def DEFAULT_MAX_RETRIES : Nat := 3

/-- `HTTPClient.shouldRetry`: membership in the idempotent-method set. -/
def shouldRetryMethod (method : String) : Bool :=
  IDEMPOTENT_METHODS.contains method

/-- The status-based retry condition of `performRequest`
(`src/http.ts` lines 126–127): `RETRY_STATUS_CODES.has(status) ||
(method === 'POST' && options.idempotencyKey && status >= 500)`.  The
truthiness test on the idempotency key is `strTruthy`. -/
def retryCondition (method : String) (idempotencyKey : Option String) (status : Nat) : Bool :=
  RETRY_STATUS_CODES.contains status ||
    (method == "POST" && strTruthy idempotencyKey && decide (status ≥ 500))

deriving instance DecidableEq for Except

/-- One fetched attempt, as seen by the retry loop: either `fetch` itself
threw (`exn`, carrying the JS error name and message — `"AbortError"` is
the abort/timeout case), or a response arrived with a status, headers and
— when the loop goes on to read it — a body whose parse may itself throw. -/
inductive AttemptOutcome (α : Type) where
  | exn (name : String) (msg : String)
  | response (status : Nat) (headers : List (String × String)) (body : Except (String × String) α)
deriving DecidableEq, Repr

/-- On success `performRequest` returns: the parsed JSON body, `undefined`
(for 204 No Content), or the headers/status object (for HEAD). -/
inductive Payload (α : Type) where
  | json (v : α)
  | empty
  | head (headers : List (String × String)) (status : Nat)
deriving DecidableEq, Repr

/-- What an attempt raise can carry at the executor boundary: a typed
`SDKError`, or a raw (transport/parsing) exception.  The executor's catch
block converts every raw exception, so `raw` is what the boundary
invariant must rule out. -/
inductive ExecErr where
  | typed (e : SDKErr)
  | raw (name : String) (msg : String)
deriving DecidableEq, Repr

/-- Result of a whole `performRequest` run together with the number of
`fetch` calls the endpoint observed. -/
structure RunResult (α : Type) where
  result : Except ExecErr (Payload α)
  calls : Nat
deriving DecidableEq, Repr

/-- Inputs of one `performRequest` run; `attempts` is the schedule of
network outcomes (attempt `i`'s outcome), `now` is the classification
clock. -/
structure ReqParams (α : Type) where
  method : String
  idempotencyKey : Option String
  url : String
  timeoutMs : Nat
  maxRetries : Nat
  now : Int
  attempts : Nat → AttemptOutcome α

/-- The `ErrorContext` the loop builds for attempt `i` (the wall-clock
fields are not modelled). -/
def attemptCtx (P : ReqParams α) (i : Nat) : ErrorContext :=
  { method := some P.method, url := some P.url, requestId := none, retryCount := some i }

/-- The catch-block conversion of a non-`SDKError` exception
(`src/http.ts` lines 170–176): an `AbortError` becomes a `TimeoutError`,
anything else a `NetworkError` wrapping the cause. -/
def convertCaught (P : ReqParams α) (i : Nat) (name msg : String) : SDKErr :=
  if name = "AbortError" then
    .timeout ("Request timed out after " ++ toString P.timeoutMs ++ "ms") P.timeoutMs
      (attemptCtx P i)
  else
    .network ("Request failed: " ++ msg) (some name) (attemptCtx P i)

/-- The retry loop of `HTTPClient.performRequest` (`src/http.ts` lines
99–187; `performRequestWithHeaders`, lines 257–351, has the identical
control flow and differs only in wrapping the payload with the response
headers).  `fuel` is the number of loop iterations still allowed
(`maxRetries + 1 - i`); the `fuel = 0` case is the post-loop
`throw new NetworkError(\x60Request failed after ... attempts\x60)` and
`lastErr` is the `lastError` variable feeding it. -/
def runFrom (P : ReqParams α) : Nat → Nat → Option (String × String) → RunResult α
  | 0, _, lastErr =>
    ⟨.error (.typed (.network ("Request failed after " ++ toString (P.maxRetries + 1) ++
        " attempts") (lastErr.map (·.1))
        { method := some P.method, url := some P.url, requestId := none,
          retryCount := some (P.maxRetries + 1) })), 0⟩
  | fuel + 1, i, lastErr =>
    match P.attempts i with
    | .exn name msg =>
      if i < P.maxRetries ∧ shouldRetryMethod P.method = true then
        ⟨(runFrom P fuel (i + 1) (some (name, msg))).result,
         (runFrom P fuel (i + 1) (some (name, msg))).calls + 1⟩
      else
        ⟨.error (.typed (convertCaught P i name msg)), 1⟩
    | .response status headers body =>
      if ¬(200 ≤ status ∧ status ≤ 299) then
        -- `!response.ok`: classify, then retry or raise
        if i < P.maxRetries ∧ retryCondition P.method P.idempotencyKey status = true then
          ⟨(runFrom P fuel (i + 1) lastErr).result, (runFrom P fuel (i + 1) lastErr).calls + 1⟩
        else
          ⟨.error (.typed (fromResponse status headers (attemptCtx P i) P.now)), 1⟩
      else if status = 204 then ⟨.ok .empty, 1⟩
      else if P.method = "HEAD" then ⟨.ok (.head headers status), 1⟩
      else
        match body with
        | .ok v => ⟨.ok (.json v), 1⟩
        | .error e =>
          -- `response.json()` threw: handled by the same catch block
          if i < P.maxRetries ∧ shouldRetryMethod P.method = true then
            ⟨(runFrom P fuel (i + 1) (some e)).result,
             (runFrom P fuel (i + 1) (some e)).calls + 1⟩
          else
            ⟨.error (.typed (convertCaught P i e.1 e.2)), 1⟩

/-- A whole `performRequest` run: attempts `0 .. maxRetries`. -/
def performRequest (P : ReqParams α) : RunResult α :=
  runFrom P (P.maxRetries + 1) 0 none

/-- JavaScript `Map` lookup on an insertion-ordered association list. -/
def mapGet {β : Type} (k : String) : List (String × β) → Option β
  | [] => none
  | e :: es => if e.1 = k then some e.2 else mapGet k es

/-- JavaScript `Map.set`: update the existing entry in place (keeping its
position) or append a fresh one. -/
def mapSet {β : Type} (k : String) (v : β) : List (String × β) → List (String × β)
  | [] => [(k, v)]
  | e :: es => if e.1 = k then (k, v) :: es else e :: mapSet k v es

/-- JavaScript `Map.delete`: remove the (unique) entry with the key. -/
def mapDelete {β : Type} (k : String) : List (String × β) → List (String × β)
  | [] => []
  | e :: es => if e.1 = k then es else e :: mapDelete k es

/-- `Array.prototype.splice(indexOf(k), 1)`: drop the first occurrence. -/
def eraseFirst (k : String) : List String → List String
  | [] => []
  | a :: as => if a = k then as else a :: eraseFirst k as

/-- The keys of a map, in insertion order. -/
def mapKeys {β : Type} (m : List (String × β)) : List String := m.map (·.1)

/-- The deduplication key computed by `HTTPClient.request` /
`requestWithHeaders` (`src/http.ts` lines 51–52 and 206–207): only GET
requests get a key; the with-headers variant appends `":with-headers"`. -/
def dedupKey (withHeaders : Bool) (method url : String) : Option String :=
  if method = "GET" then
    some (method ++ ":" ++ url ++ (if withHeaders then ":with-headers" else ""))
  else none

/-- Entering `request`/`requestWithHeaders` with the in-flight queue `q`:
a pending promise is identified by a number; `fresh` is the identifier a
newly started `performRequest` would get.  Returns the promise the caller
awaits and the updated queue (`src/http.ts` lines 51–71 and 206–232). -/
def beginRequest (q : List (String × Nat)) (withHeaders : Bool) (method url : String)
    (fresh : Nat) : Nat × List (String × Nat) :=
  match dedupKey withHeaders method url with
  | none => (fresh, q)
  | some key =>
    match mapGet key q with
    | some pid => (pid, q)
    | none => (fresh, mapSet key fresh q)

/-- Settlement of the deduplicated promise: both the success path and the
catch path of `request`/`requestWithHeaders` delete the queue entry
before returning or rethrowing. -/
def settleRequest (q : List (String × Nat)) (withHeaders : Bool) (method url : String) :
    List (String × Nat) :=
  match dedupKey withHeaders method url with
  | none => q
  | some key => mapDelete key q

/-- `CacheEntry` from `src/cache.ts`. -/
structure CacheEntry (α : Type) where
  data : α
  etag : Option String
  timestamp : Nat
  ttl : Nat
deriving DecidableEq, Repr

/-- The `LRUCache` class state: the entry map (insertion-ordered, like a
JS `Map`), the access-order array, and the two configuration fields. -/
structure LRUCache (α : Type) where
  cache : List (String × CacheEntry α)
  accessOrder : List String
  maxSize : Nat
  defaultTTL : Nat
deriving DecidableEq, Repr

/-- The `LRUCache` constructor: `maxSize ?? 100`, `defaultTTL ?? 60000`. -/
def LRUCache.new (α : Type) (maxSize? defaultTTL? : Option Nat) : LRUCache α :=
  { cache := [], accessOrder := [], maxSize := maxSize?.getD 100,
    defaultTTL := defaultTTL?.getD 60000 }

/-- `size` getter. -/
def LRUCache.size (c : LRUCache α) : Nat := c.cache.length

/-- `updateAccessOrder`: move the key to the most-recent end if present. -/
def LRUCache.updateAccessOrder (c : LRUCache α) (k : String) : LRUCache α :=
  if k ∈ c.accessOrder then
    { c with accessOrder := eraseFirst k c.accessOrder ++ [k] }
  else c

/-- `delete`: drop the key from the access order and the map; returns
whether the map had the key (the value of `Map.delete`). -/
def LRUCache.delete (c : LRUCache α) (k : String) : Bool × LRUCache α :=
  ((mapGet k c.cache).isSome,
    { c with accessOrder := eraseFirst k c.accessOrder, cache := mapDelete k c.cache })

/-- `get`: absent → `undefined`; expired (`now > timestamp + ttl`) →
delete and `undefined`; otherwise bump the access order and return the
data. -/
def LRUCache.get (c : LRUCache α) (now : Nat) (k : String) : Option α × LRUCache α :=
  match mapGet k c.cache with
  | none => (none, c)
  | some e =>
    if e.timestamp + e.ttl < now then (none, (c.delete k).2)
    else (some e.data, c.updateAccessOrder k)

/-- `getEntry`: like `get` but returns the whole entry. -/
def LRUCache.getEntry (c : LRUCache α) (now : Nat) (k : String) :
    Option (CacheEntry α) × LRUCache α :=
  match mapGet k c.cache with
  | none => (none, c)
  | some e =>
    if e.timestamp + e.ttl < now then (none, (c.delete k).2)
    else (some e, c.updateAccessOrder k)

/-- `has`: like `get` but without the access-order bump. -/
def LRUCache.has (c : LRUCache α) (now : Nat) (k : String) : Bool × LRUCache α :=
  match mapGet k c.cache with
  | none => (false, c)
  | some e =>
    if e.timestamp + e.ttl < now then (false, (c.delete k).2)
    else (true, c)

/-- The `while (this.cache.size > this.maxSize)` eviction loop of `set`:
shift the oldest key off the access order and delete it from the map.
The recursion is on the access-order array, which `shift` shortens each
iteration; when the array is empty but the map is still over capacity the
source would spin forever, a state the well-formedness invariant below
rules out. -/
def evictLoop (maxSize : Nat) : List String → List (String × CacheEntry α) →
    List String × List (String × CacheEntry α)
  | [], m => ([], m)
  | k :: rest, m =>
    if m.length > maxSize then evictLoop maxSize rest (mapDelete k m)
    else (k :: rest, m)

/-- `set`: drop an existing key from the access order, write the entry
(`timestamp := Date.now()`, `ttl ?? defaultTTL`), push the key as most
recent, then evict while over capacity. -/
def LRUCache.set (c : LRUCache α) (now : Nat) (k : String) (d : α)
    (etag : Option String) (ttl : Option Nat) : LRUCache α :=
  let ao := if (mapGet k c.cache).isSome then eraseFirst k c.accessOrder else c.accessOrder
  let m := mapSet k { data := d, etag := etag, timestamp := now, ttl := ttl.getD c.defaultTTL }
    c.cache
  let st := evictLoop c.maxSize (ao ++ [k]) m
  { c with accessOrder := st.1, cache := st.2 }

/-- `clear`. -/
def LRUCache.clear (c : LRUCache α) : LRUCache α :=
  { c with cache := [], accessOrder := [] }

/-- `invalidatePattern`: iterate the keys of the map, deleting every
match; deleting the key currently visited is safe in a JS `Map`
iteration, so the walk is over the original key list. -/
def LRUCache.invalidatePattern (c : LRUCache α) (p : String → Bool) : LRUCache α :=
  (mapKeys c.cache).foldl (fun acc k => if p k then (acc.delete k).2 else acc) c

/-- Internal consistency of an access-order array and an entry map: no
duplicates on either side and the same key membership.  `LRUCache`
operations preserve this. -/
def WfP {α : Type} (ao : List String) (m : List (String × CacheEntry α)) : Prop :=
  ao.Nodup ∧ (mapKeys m).Nodup ∧ ∀ j, j ∈ ao ↔ j ∈ mapKeys m

/-- Well-formedness of a cache state. -/
def LRUCache.Wf (c : LRUCache α) : Prop := WfP c.accessOrder c.cache

instance {α : Type} (ao : List String) (m : List (String × CacheEntry α)) :
    Decidable (WfP ao m) := by
  unfold WfP
  have : Decidable (∀ j, j ∈ ao ↔ j ∈ mapKeys m) := by
    refine decidable_of_iff ((∀ j ∈ ao, j ∈ mapKeys m) ∧ ∀ j ∈ mapKeys m, j ∈ ao) ?_
    constructor
    · rintro ⟨h₁, h₂⟩ j; exact ⟨h₁ j, h₂ j⟩
    · intro h; exact ⟨fun j hj => (h j).1 hj, fun j hj => (h j).2 hj⟩
  exact instDecidableAnd

instance {α : Type} (c : LRUCache α) : Decidable c.Wf := by
  unfold LRUCache.Wf; infer_instance

/-- The value `Sessions.read` returns and caches: the session payload
spread together with the `etag` field when the response carried a truthy
ETag header (`{...session, ...(etag && \x7b etag \x7d)}`). -/
structure SessionRes (σ : Type) where
  session : σ
  etag : Option String
deriving DecidableEq, Repr

/-- What the HTTP layer reports back to `Sessions.read` for a given
`If-None-Match` header: a 2xx response with a session payload and the
`etag` response header, or a raised `SDKError`. -/
inductive ReadOutcome (σ : Type) where
  | ok (session : σ) (etagHeader : Option String)
  | err (e : SDKErr)
deriving DecidableEq, Repr

/-- What `Sessions.read` produces. -/
inductive ReadResult (σ : Type) where
  | value (v : SessionRes σ)
  | notModifiedNull
  | raised (e : SDKErr)
deriving DecidableEq, Repr

/-- `Sessions.read` (`src/resources/sessions.ts`): consult the cache for a
stored validator when none was supplied, send it as `If-None-Match`,
cache a fresh 2xx response that carries an ETag (5-minute TTL), and on a
raised 304 fall back to the cached payload (or null).  Returns the
result, the cache afterwards, and — for observability — the
`If-None-Match` value actually sent to the HTTP layer. -/
def sessionsRead {σ : Type} (cache : Option (LRUCache (SessionRes σ))) (now : Nat)
    (projectId sessionId : String) (ifNoneMatch : Option String)
    (server : Option String → ReadOutcome σ) :
    ReadResult σ × Option (LRUCache (SessionRes σ)) × Option String :=
  let cacheKey := "session:" ++ projectId ++ ":" ++ sessionId
  -- `if (!ifNoneMatch && this.cache)` — consult the stored validator
  let consulted : Option String × Option (LRUCache (SessionRes σ)) :=
    match strTruthy ifNoneMatch, cache with
    | false, some c =>
      match c.getEntry now cacheKey with
      | (some e, c') => (e.etag, some c')
      | (none, c') => (ifNoneMatch, some c')
    | _, _ => (ifNoneMatch, cache)
  let inm := consulted.1
  let cache := consulted.2
  -- `if (ifNoneMatch) headers['If-None-Match'] = ifNoneMatch`
  let sentHeader := if strTruthy inm then inm else none
  match server sentHeader with
  | .ok data etagHeader =>
    let etag := jsStr etagHeader
    let result : SessionRes σ := { session := data, etag := etag }
    let cache' :=
      match cache, etag with
      | some c, some e => some (c.set now cacheKey result (some e) (some 300000))
      | _, _ => cache
    (.value result, cache', sentHeader)
  | .err e =>
    if e.statusOf = some 304 then
      match cache with
      | some c =>
        match c.get now cacheKey with
        | (some v, c') => (.value v, some c', sentHeader)
        | (none, c') => (.notModifiedNull, some c', sentHeader)
      | none => (.notModifiedNull, cache, sentHeader)
    else (.raised e, cache, sentHeader)

/-- The GraphQL error class of `src/errors.ts` at the facade boundary:
message, the error list, the query text and the variables (`V` is the
shape of the variables object). -/
structure GraphQLErrorModel (V : Type) where
  message : String
  errors : List GqlErrorItem
  queryText : Option String
  vars : Option V
deriving DecidableEq, Repr

/-- The variables object `GraphQL.search` builds: always `query`, plus
`limit` when the option was passed and `filters` when truthy (`φ` is the
shape of the filters object, `Record<string, any>` in the source). -/
structure SearchVariables (φ : Type) where
  query : String
  limit : Option Int
  filters : Option φ
deriving DecidableEq, Repr

/-- The body of a 2xx GraphQL search response:
`{ data?: { searchSessions: ... }, errors?: [...] }`; the inner
`searchSessions` is optional because the source guards
`response.data?.searchSessions`. -/
structure GqlSearchResponse (ρ : Type) where
  data : Option (Option ρ)
  errors : Option (List GqlErrorItem)
deriving DecidableEq, Repr

/-- The query text literal of `GraphQL.search` (template literal in the
source; braces written as escapes). -/
def searchQueryText : String :=
  "\n      query SearchSessions($query: String!, $filters: SessionFilters, $limit: Int) \x7b\n        searchSessions(query: $query, filters: $filters, limit: $limit) \x7b\n          total\n          results \x7b\n            id\n            name\n            projectId\n            rank\n            metadata \x7b\n              clientName\n              tags\n            \x7d\n          \x7d\n        \x7d\n      \x7d\n    "

/-- `response.errors && response.errors.length > 0`. -/
def hasGqlErrors (errors : Option (List GqlErrorItem)) : Bool :=
  match errors with
  | some l => decide (0 < l.length)
  | none => false

/-- `GraphQL.search` response handling (`src/resources/graphql.ts` lines
65–73): a non-empty `errors` array fails the call even alongside data; a
missing `data?.searchSessions` fails with the no-data error; otherwise
the payload is returned. -/
def gqlSearchHandle {φ ρ : Type} (resp : GqlSearchResponse ρ) (vars : SearchVariables φ) :
    Except (GraphQLErrorModel (SearchVariables φ)) ρ :=
  if hasGqlErrors resp.errors then
    .error { message := "GraphQL query failed", errors := resp.errors.getD [],
             queryText := some searchQueryText, vars := some vars }
  else
    match resp.data with
    | some (some r) => .ok r
    | _ =>
      .error { message := "No data returned from GraphQL query", errors := [],
               queryText := some searchQueryText, vars := some vars }

/-- `GraphQL.query` response handling (`src/resources/graphql.ts` lines
76–91): only the `errors` array is checked; `response.data` is returned
as-is (possibly absent). -/
def gqlQueryHandle {V δ : Type} (resp : Option δ × Option (List GqlErrorItem))
    (queryText : String) (vars : Option V) :
    Except (GraphQLErrorModel V) (Option δ) :=
  if hasGqlErrors resp.2 then
    .error { message := "GraphQL query failed", errors := resp.2.getD [],
             queryText := some queryText, vars := vars }
  else .ok resp.1

theorem mapGet_eq_none {β : Type} {k : String} {m : List (String × β)} :
    mapGet k m = none ↔ k ∉ mapKeys m := by
  induction m with
  | nil => simp [mapGet, mapKeys]
  | cons e es ih =>
    by_cases h : e.1 = k
    · simp [mapGet, mapKeys, h]
    · simp [mapGet, mapKeys, h, ih, Ne.symm h]

theorem mapGet_isSome_iff {β : Type} {k : String} {m : List (String × β)} :
    (mapGet k m).isSome = true ↔ k ∈ mapKeys m := by
  rw [Option.isSome_iff_ne_none]
  exact not_iff_comm.mp (Iff.symm mapGet_eq_none)

theorem mapGet_mapSet_self {β : Type} {k : String} {v : β} {m : List (String × β)} :
    mapGet k (mapSet k v m) = some v := by
  induction m with
  | nil => simp [mapGet, mapSet]
  | cons e es ih =>
    by_cases h : e.1 = k
    · simp [mapGet, mapSet, h]
    · simp [mapGet, mapSet, h, ih]

theorem mapKeys_mapSet {β : Type} {k : String} {v : β} {m : List (String × β)} :
    mapKeys (mapSet k v m) = if k ∈ mapKeys m then mapKeys m else mapKeys m ++ [k] := by
  induction m with
  | nil => simp [mapSet, mapKeys]
  | cons e es ih =>
    by_cases h : e.1 = k
    · simp [mapSet, mapKeys, h]
    · simp only [mapSet, if_neg h, mapKeys, List.map_cons] at ih ⊢
      rw [ih]
      by_cases hk : k ∈ List.map Prod.fst es
      · simp [hk, Ne.symm h]
      · simp [hk, Ne.symm h]

theorem mapKeys_mapDelete {β : Type} {k : String} {m : List (String × β)} :
    mapKeys (mapDelete k m) = eraseFirst k (mapKeys m) := by
  induction m with
  | nil => simp [mapDelete, mapKeys, eraseFirst]
  | cons e es ih =>
    by_cases h : e.1 = k
    · simp [mapDelete, mapKeys, eraseFirst, h]
    · simp only [mapDelete, if_neg h, mapKeys, List.map_cons, eraseFirst, Ne.symm h,
        if_false]
      simp [mapKeys] at ih
      rw [ih]

theorem length_mapKeys {β : Type} {m : List (String × β)} :
    (mapKeys m).length = m.length := by
  simp [mapKeys]

theorem eraseFirst_of_not_mem {k : String} {l : List String} (h : k ∉ l) :
    eraseFirst k l = l := by
  induction l with
  | nil => rfl
  | cons a as ih =>
    simp only [List.mem_cons, not_or] at h
    simp [eraseFirst, Ne.symm h.1, ih h.2]

theorem length_eraseFirst_of_mem {k : String} {l : List String} (h : k ∈ l) :
    (eraseFirst k l).length + 1 = l.length := by
  induction l with
  | nil => cases h
  | cons a as ih =>
    by_cases ha : a = k
    · simp [eraseFirst, ha]
    · have : k ∈ as := by
        cases List.mem_cons.mp h with
        | inl hh => exact absurd hh.symm ha
        | inr hh => exact hh
      simp [eraseFirst, ha, ih this]

theorem sublist_eraseFirst {k : String} {l : List String} : List.Sublist (eraseFirst k l) l := by
  induction l with
  | nil => simp [eraseFirst]
  | cons a as ih =>
    by_cases ha : a = k
    · simp only [eraseFirst, if_pos ha]
      exact List.sublist_cons_self a as
    · simp only [eraseFirst, if_neg ha]
      exact List.Sublist.cons₂ a ih

theorem nodup_eraseFirst {k : String} {l : List String} (h : l.Nodup) :
    (eraseFirst k l).Nodup :=
  h.sublist sublist_eraseFirst

theorem mem_eraseFirst_iff {j k : String} {l : List String} (h : l.Nodup) :
    j ∈ eraseFirst k l ↔ j ∈ l ∧ j ≠ k := by
  induction l with
  | nil => simp [eraseFirst]
  | cons a as ih =>
    have ha' : a ∉ as := (List.nodup_cons.mp h).1
    have has : as.Nodup := (List.nodup_cons.mp h).2
    by_cases ha : a = k
    · subst ha
      simp only [eraseFirst, if_pos rfl]
      constructor
      · intro hj
        refine ⟨List.mem_cons_of_mem _ hj, ?_⟩
        rintro rfl; exact ha' hj
      · rintro ⟨hj, hne⟩
        cases List.mem_cons.mp hj with
        | inl hh => exact absurd hh hne
        | inr hh => exact hh
    · simp only [eraseFirst, if_neg ha, List.mem_cons, ih has]
      constructor
      · rintro (rfl | ⟨hj, hne⟩)
        · exact ⟨Or.inl rfl, fun hh => ha hh⟩
        · exact ⟨Or.inr hj, hne⟩
      · rintro ⟨rfl | hj, hne⟩
        · exact Or.inl rfl
        · exact Or.inr ⟨hj, hne⟩

theorem not_mem_eraseFirst_self {k : String} {l : List String} (h : l.Nodup) :
    k ∉ eraseFirst k l := by
  intro hk
  exact ((mem_eraseFirst_iff h).mp hk).2 rfl

theorem mapGet_mapDelete_self {β : Type} {k : String} {m : List (String × β)}
    (h : (mapKeys m).Nodup) : mapGet k (mapDelete k m) = none := by
  rw [mapGet_eq_none, mapKeys_mapDelete]
  exact not_mem_eraseFirst_self h

/-- C3: deduplication applies only to the two idempotent GET variants
(plain GET and GET-with-headers, whose keys for the same URL are
distinct) and never to mutating methods; while a deduplicated request is
pending, a further call with the same key returns the same pending
promise without changing the queue; and once the request settles the
entry is removed, so the next call for that key starts a fresh
operation. -/
theorem c3_dedup_lifecycle :
    (∀ (q : List (String × Nat)) (wh : Bool) (method url : String) (f : Nat),
        method ≠ "GET" → beginRequest q wh method url f = (f, q)) ∧
    (∀ url : String, dedupKey false "GET" url ≠ dedupKey true "GET" url) ∧
    (∀ (q : List (String × Nat)) (wh : Bool) (url : String) (f f' : Nat),
        beginRequest (beginRequest q wh "GET" url f).2 wh "GET" url f' =
          ((beginRequest q wh "GET" url f).1, (beginRequest q wh "GET" url f).2)) ∧
    (∀ (q : List (String × Nat)) (wh : Bool) (url : String) (f f' : Nat),
        (mapKeys q).Nodup →
        (beginRequest (settleRequest (beginRequest q wh "GET" url f).2 wh "GET" url)
            wh "GET" url f').1 = f') := by
  refine ⟨?_, ?_, ?_, ?_⟩
  · intro q wh method url f h
    simp [beginRequest, dedupKey, h]
  · intro url h
    simp [dedupKey] at h
    have hlen := congrArg String.length h
    simp [String.length_append] at hlen
    exact absurd hlen (by decide)
  · intro q wh url f f'
    obtain ⟨k, hk⟩ : ∃ k, dedupKey wh "GET" url = some k := ⟨_, by rw [dedupKey, if_pos rfl]⟩
    simp only [beginRequest, hk]
    cases hq : mapGet k q with
    | some pid => simp [hq]
    | none => simp [hq, mapGet_mapSet_self]
  · intro q wh url f f' hnd
    obtain ⟨k, hk⟩ : ∃ k, dedupKey wh "GET" url = some k := ⟨_, by rw [dedupKey, if_pos rfl]⟩
    simp only [beginRequest, settleRequest, hk]
    cases hq : mapGet k q with
    | some pid =>
      simp only [hq]
      rw [mapGet_mapDelete_self hnd]
    | none =>
      simp only [hq]
      have hnotmem : k ∉ mapKeys q := mapGet_eq_none.mp hq
      have hnd' : (mapKeys (mapSet k f q)).Nodup := by
        rw [mapKeys_mapSet, if_neg hnotmem]
        simp only [List.nodup_append, List.nodup_cons, List.not_mem_nil, List.nodup_nil]
        exact ⟨hnd, by simpa using hnotmem⟩
      rw [mapGet_mapDelete_self hnd']

/-- Witness for C3 at concrete inputs. -/
theorem c3_dedup_lifecycle_witness :
    beginRequest [] true "POST" "/u" 7 = (7, []) ∧
    dedupKey false "GET" "/u" ≠ dedupKey true "GET" "/u" ∧
    beginRequest (beginRequest [] false "GET" "/u" 1).2 false "GET" "/u" 2 =
      ((beginRequest [] false "GET" "/u" 1).1, (beginRequest [] false "GET" "/u" 1).2) ∧
    (beginRequest (settleRequest (beginRequest [] false "GET" "/u" 1).2 false "GET" "/u")
        false "GET" "/u" 9).1 = 9 :=
  ⟨c3_dedup_lifecycle.1 [] true "POST" "/u" 7 (by decide),
   c3_dedup_lifecycle.2.1 "/u",
   c3_dedup_lifecycle.2.2.1 [] false "/u" 1 2,
   c3_dedup_lifecycle.2.2.2 [] false "/u" 1 9 (by decide)⟩

/-- C6: a 2xx GraphQL response whose body has a non-empty `errors` array
fails with a GraphQL-kind typed error carrying the full error list, the
original query text and the supplied variables — even when a non-null
`data.searchSessions` payload is present (for `search`; likewise for
`query` with its caller-supplied text and variables) — and when `errors`
is absent or empty but `data.searchSessions` is also absent, `search`
fails with the "no data returned" GraphQL error. -/
theorem c6_graphql_errors :
    (∀ (φ ρ : Type) (resp : GqlSearchResponse ρ) (vars : SearchVariables φ)
        (es : List GqlErrorItem), resp.errors = some es → es ≠ [] →
        gqlSearchHandle resp vars =
          .error { message := "GraphQL query failed", errors := es,
                   queryText := some searchQueryText, vars := some vars }) ∧
    (∀ (φ ρ : Type) (resp : GqlSearchResponse ρ) (vars : SearchVariables φ),
        hasGqlErrors resp.errors = false →
        (resp.data = none ∨ resp.data = some none) →
        gqlSearchHandle resp vars =
          .error { message := "No data returned from GraphQL query", errors := [],
                   queryText := some searchQueryText, vars := some vars }) ∧
    (∀ (V δ : Type) (d : Option δ) (es : List GqlErrorItem) (queryText : String)
        (vars : Option V), es ≠ [] →
        gqlQueryHandle (d, some es) queryText vars =
          .error { message := "GraphQL query failed", errors := es,
                   queryText := some queryText, vars := vars }) := by
  refine ⟨?_, ?_, ?_⟩
  · intro φ ρ resp vars es hes hne
    have hlen : 0 < es.length := List.length_pos.mpr hne
    simp [gqlSearchHandle, hasGqlErrors, hes, hlen]
  · intro φ ρ resp vars herr hdata
    rw [gqlSearchHandle, herr]
    cases hdata with
    | inl h => simp only [Bool.false_eq_true, if_false, h]
    | inr h => simp only [Bool.false_eq_true, if_false, h]
  · intro V δ d es queryText vars hne
    have hlen : 0 < es.length := List.length_pos.mpr hne
    simp [gqlQueryHandle, hasGqlErrors, hlen]

/-- Witness for C6 at concrete inputs (a response with both data and a
non-empty errors array fails; an empty response fails with the no-data
error). -/
theorem c6_graphql_errors_witness :
    gqlSearchHandle (φ := Unit) (ρ := Nat)
        { data := some (some 5), errors := some [{ message := "boom" }] }
        { query := "q", limit := none, filters := none } =
      .error { message := "GraphQL query failed", errors := [{ message := "boom" }],
               queryText := some searchQueryText,
               vars := some { query := "q", limit := none, filters := none } } ∧
    gqlSearchHandle (φ := Unit) (ρ := Nat) { data := none, errors := some [] }
        { query := "q", limit := none, filters := none } =
      .error { message := "No data returned from GraphQL query", errors := [],
               queryText := some searchQueryText,
               vars := some { query := "q", limit := none, filters := none } } ∧
    gqlQueryHandle (V := Unit) (δ := Nat) (some 3, some [{ message := "bad" }]) "Q" none =
      .error { message := "GraphQL query failed", errors := [{ message := "bad" }],
               queryText := some "Q", vars := none } :=
  ⟨c6_graphql_errors.1 Unit Nat _ _ [{ message := "boom" }] rfl (by decide),
   c6_graphql_errors.2.1 Unit Nat _ _ (by decide) (Or.inl rfl),
   c6_graphql_errors.2.2 Unit Nat (some 3) [{ message := "bad" }] "Q" none (by decide)⟩

/-- C9 counterexample: the claim says a present `retry-after` header (in
seconds) always yields an absolute retry-after instant `now + seconds`,
but a header of `"0"` is parsed to `0`, which is falsy in the
`RateLimitError` constructor, so the error carries no instant at all —
not `some (now + 0)`. -/
theorem c9_counterexample :
    headersGet [("retry-after", "0")] "retry-after" = some "0" ∧
    fromResponse 429 [("retry-after", "0")] {} 1000 =
      .rateLimit "Rate limit exceeded" none {} ∧
    (none : Option Int) ≠ some (1000 + 0 * 1000) := by
  refine ⟨rfl, ?_, by decide⟩
  rfl

/-- C9 (amended): classification is the deterministic status-code mapping
(400 Validation, 401 Authentication, 403 Permission, 404 NotFound, 429
RateLimit, 500/502/503/504 Server with the status, any other non-2xx
Unknown with the status); for 429 the error carries the absolute instant
`now + seconds·1000` whenever the `retry-after` header parses to a
**nonzero** number of seconds (a `"0"`, empty or non-numeric header
yields no instant); and every variant carries the request id from a
non-empty `x-request-id` response header. -/
theorem c9_classification_amended
    (status : Nat) (headers : List (String × String)) (ctx : ErrorContext) (now : Int) :
    (status = 400 →
      fromResponse status headers ctx now =
        .validation "The request was invalid" (classifiedCtx headers ctx)) ∧
    (status = 401 →
      fromResponse status headers ctx now =
        .authentication "Invalid API key" (classifiedCtx headers ctx)) ∧
    (status = 403 →
      fromResponse status headers ctx now =
        .permission "You do not have permission to access this resource"
          (classifiedCtx headers ctx)) ∧
    (status = 404 →
      fromResponse status headers ctx now =
        .notFound "The requested resource does not exist" (classifiedCtx headers ctx)) ∧
    (status = 429 → ∀ n : Int, retryAfterSeconds headers = some n → n ≠ 0 →
      fromResponse status headers ctx now =
        .rateLimit "Rate limit exceeded" (some (now + n * 1000)) (classifiedCtx headers ctx)) ∧
    (status = 429 → retryAfterSeconds headers = none →
      fromResponse status headers ctx now =
        .rateLimit "Rate limit exceeded" none (classifiedCtx headers ctx)) ∧
    (status = 500 ∨ status = 502 ∨ status = 503 ∨ status = 504 →
      fromResponse status headers ctx now =
        .server ("Server error: " ++ toString status) status (classifiedCtx headers ctx)) ∧
    (¬(200 ≤ status ∧ status ≤ 299) →
      status ∉ ([400, 401, 403, 404, 429, 500, 502, 503, 504] : List Nat) →
      fromResponse status headers ctx now =
        .unknown ("Unexpected error: " ++ toString status) status (classifiedCtx headers ctx)) ∧
    (∀ r : String, headersGet headers "x-request-id" = some r → ¬r.isEmpty →
      (fromResponse status headers ctx now).contextOf.requestId = some r) := by
  refine ⟨?_, ?_, ?_, ?_, ?_, ?_, ?_, ?_, ?_⟩
  · rintro rfl; rfl
  · rintro rfl; rfl
  · rintro rfl; rfl
  · rintro rfl; rfl
  · rintro rfl n hn hne
    simp [fromResponse, rateLimitRetryAfter, hn, hne]
  · rintro rfl hn
    simp [fromResponse, rateLimitRetryAfter, hn]
  · rintro (rfl | rfl | rfl | rfl) <;> rfl
  · intro _ hnot
    simp only [List.mem_cons, List.not_mem_nil, or_false, not_or] at hnot
    obtain ⟨h400, h401, h403, h404, h429, h500, h502, h503, h504⟩ := hnot
    simp [fromResponse, h400, h401, h403, h404, h429, h500, h502, h503, h504]
  · intro r hr hre
    have hctx : (classifiedCtx headers ctx).requestId = some r := by
      simp [classifiedCtx, hr, jsStr, hre]
    rw [fromResponse]
    split_ifs <;> simp [SDKErr.contextOf, hctx]

/-- Witness for C9 (amended) at concrete inputs. -/
theorem c9_classification_amended_witness :
    fromResponse 429 [("retry-after", "7"), ("x-request-id", "rid")] {} 1000 =
      .rateLimit "Rate limit exceeded" (some (1000 + 7 * 1000))
        (classifiedCtx [("retry-after", "7"), ("x-request-id", "rid")] {}) ∧
    fromResponse 418 [] {} 0 =
      .unknown ("Unexpected error: " ++ toString 418) 418 (classifiedCtx [] {}) ∧
    (fromResponse 503 [("x-request-id", "rid")] {} 0).contextOf.requestId = some "rid" :=
  ⟨(c9_classification_amended 429 [("retry-after", "7"), ("x-request-id", "rid")] {} 1000).2.2.2.2.1
      rfl 7 (by decide) (by decide),
   (c9_classification_amended 418 [] {} 0).2.2.2.2.2.2.2.1 (by decide) (by decide),
   (c9_classification_amended 503 [("x-request-id", "rid")] {} 0).2.2.2.2.2.2.2.2 "rid" rfl
      (by decide)⟩

/-- C5: on a session read without an explicitly supplied validator, the
facade consults the cache under the resource's logical key and sends the
stored validator as `If-None-Match`; a 304-equivalent response returns
the previously cached payload when present and null only when the entry
was independently evicted; and a fresh 2xx response (carrying a
validator) always overwrites the cache entry with the new payload and
new validator. -/
theorem c5_conditional_read {σ : Type}
    (c : LRUCache (SessionRes σ)) (now : Nat) (pid sid : String)
    (ifNoneMatch : Option String) (server : Option String → ReadOutcome σ)
    (hIfm : strTruthy ifNoneMatch = false) :
    (∀ (entry : CacheEntry (SessionRes σ)) (c' : LRUCache (SessionRes σ)) (v : String),
        c.getEntry now ("session:" ++ pid ++ ":" ++ sid) = (some entry, c') →
        jsStr entry.etag = some v →
        (sessionsRead (some c) now pid sid ifNoneMatch server).2.2 = some v) ∧
    (∀ (e : SDKErr), (∀ h, server h = .err e) → e.statusOf = some 304 →
      (∀ (cv : SessionRes σ) (c'' : LRUCache (SessionRes σ)),
          ((c.getEntry now ("session:" ++ pid ++ ":" ++ sid)).2).get now
              ("session:" ++ pid ++ ":" ++ sid) = (some cv, c'') →
          (sessionsRead (some c) now pid sid ifNoneMatch server).1 = .value cv ∧
          (sessionsRead (some c) now pid sid ifNoneMatch server).2.1 = some c'') ∧
      (∀ (c'' : LRUCache (SessionRes σ)),
          ((c.getEntry now ("session:" ++ pid ++ ":" ++ sid)).2).get now
              ("session:" ++ pid ++ ":" ++ sid) = (none, c'') →
          (sessionsRead (some c) now pid sid ifNoneMatch server).1 = .notModifiedNull)) ∧
    (∀ (d : σ) (et : String), (∀ h, server h = .ok d (some et)) → ¬et.isEmpty →
        (sessionsRead (some c) now pid sid ifNoneMatch server).1 =
          .value { session := d, etag := some et } ∧
        (sessionsRead (some c) now pid sid ifNoneMatch server).2.1 =
          some (((c.getEntry now ("session:" ++ pid ++ ":" ++ sid)).2).set now
            ("session:" ++ pid ++ ":" ++ sid) { session := d, etag := some et } (some et)
            (some 300000))) := by
  refine ⟨?_, ?_, ?_⟩
  · intro entry c' v hge hv
    have hetag : entry.etag = some v := by
      cases he : entry.etag with
      | none => rw [he] at hv; simp [jsStr] at hv
      | some s =>
        rw [he] at hv
        by_cases hse : s.isEmpty <;> simp [jsStr, hse] at hv
        · rw [hv]
    have hvne : ¬v.isEmpty := by
      rw [hetag] at hv
      by_cases hse : v.isEmpty <;> simp [jsStr, hse] at hv
      · exact hse
    have hstv : strTruthy (some v) = true := by simp [strTruthy, hvne]
    simp only [sessionsRead, hIfm, hge, hetag, hstv, if_true]
    cases hs : server (some v) with
    | ok data etagHeader => simp [hs]
    | err e =>
      simp only [hs]
      by_cases h304 : e.statusOf = some 304
      · simp only [h304, if_pos rfl]
        rcases c'.get now ("session:" ++ pid ++ ":" ++ sid) with ⟨cvo, c''⟩
        cases cvo <;> simp
      · simp [h304]
  · intro e hserv hst
    constructor
    · intro cv c'' hget
      rcases hge : c.getEntry now ("session:" ++ pid ++ ":" ++ sid) with ⟨eo, c'⟩
      rw [hge] at hget
      cases eo <;>
        simp [sessionsRead, hIfm, hge, hserv, hst, hget]
    · intro c'' hget
      rcases hge : c.getEntry now ("session:" ++ pid ++ ":" ++ sid) with ⟨eo, c'⟩
      rw [hge] at hget
      cases eo <;>
        simp [sessionsRead, hIfm, hge, hserv, hst, hget]
  · intro d et hserv het
    rcases hge : c.getEntry now ("session:" ++ pid ++ ":" ++ sid) with ⟨eo, c'⟩
    cases eo <;>
      simp [sessionsRead, hIfm, hge, hserv, jsStr, het]

/-- A concrete one-entry cache for exercising the conditional-read path. -/
def c5cacheW : LRUCache (SessionRes Nat) :=
  { cache := [("session:p:s",
      { data := { session := 1, etag := some "v1" }, etag := some "v1",
        timestamp := 0, ttl := 10 })],
    accessOrder := ["session:p:s"], maxSize := 100, defaultTTL := 60000 }

/-- Witness for C5: the stored validator is sent, a 304 returns the
cached payload, and a fresh 2xx overwrites the entry. -/
theorem c5_conditional_read_witness :
    (sessionsRead (some c5cacheW) 5 "p" "s" none
        (fun _ => .err (.unknown "Unexpected error: 304" 304 {}))).2.2 = some "v1" ∧
    (sessionsRead (some c5cacheW) 5 "p" "s" none
        (fun _ => .err (.unknown "Unexpected error: 304" 304 {}))).1 =
      .value { session := 1, etag := some "v1" } ∧
    (sessionsRead (some c5cacheW) 5 "p" "s" none
        (fun _ => .ok (2 : Nat) (some "v2"))).1 = .value { session := 2, etag := some "v2" } :=
  ⟨(c5_conditional_read c5cacheW 5 "p" "s" none
        (fun _ => .err (.unknown "Unexpected error: 304" 304 {})) rfl).1
      { data := { session := 1, etag := some "v1" }, etag := some "v1",
        timestamp := 0, ttl := 10 }
      ((c5cacheW.getEntry 5 ("session:" ++ "p" ++ ":" ++ "s")).2) "v1" (by decide) (by decide),
   (((c5_conditional_read c5cacheW 5 "p" "s" none
        (fun _ => .err (.unknown "Unexpected error: 304" 304 {})) rfl).2.1
      (.unknown "Unexpected error: 304" 304 {}) (fun _ => rfl) rfl).1
      { session := 1, etag := some "v1" }
      ((((c5cacheW.getEntry 5 ("session:" ++ "p" ++ ":" ++ "s")).2).get 5
        ("session:" ++ "p" ++ ":" ++ "s")).2) (by decide)).1,
   ((c5_conditional_read c5cacheW 5 "p" "s" none
        (fun _ => .ok (2 : Nat) (some "v2")) rfl).2.2 2 "v2" (fun _ => rfl) (by decide)).1⟩


theorem runFrom_const_fail_no_retry {α : Type} (P : ReqParams α) (s : Nat)
    (hdrs : List (String × String)) (body : Except (String × String) α)
    (fuel i : Nat) (le : Option (String × String))
    (hatt : P.attempts i = .response s hdrs body)
    (hok : ¬(200 ≤ s ∧ s ≤ 299))
    (hcond : retryCondition P.method P.idempotencyKey s = false) :
    runFrom P (fuel + 1) i le =
      ⟨.error (.typed (fromResponse s hdrs (attemptCtx P i) P.now)), 1⟩ := by
  rw [runFrom]
  simp only [hatt]
  rw [if_pos hok, if_neg (by simp [hcond])]

theorem runFrom_const_fail_retry {α : Type} (P : ReqParams α) (s : Nat)
    (hdrs : List (String × String)) (body : Except (String × String) α)
    (hatt : ∀ i, P.attempts i = .response s hdrs body)
    (hok : ¬(200 ≤ s ∧ s ≤ 299))
    (hcond : retryCondition P.method P.idempotencyKey s = true) :
    ∀ (fuel i : Nat) (le : Option (String × String)),
      i + fuel = P.maxRetries + 1 → i ≤ P.maxRetries →
      runFrom P fuel i le =
        ⟨.error (.typed (fromResponse s hdrs (attemptCtx P P.maxRetries) P.now)), fuel⟩ := by
  intro fuel
  induction fuel with
  | zero => intro i le h hle; omega
  | succ fuel ih =>
    intro i le h hle
    rw [runFrom]
    simp only [hatt i]
    rw [if_pos hok]
    by_cases hi : i < P.maxRetries
    · rw [if_pos ⟨hi, hcond⟩, ih (i + 1) le (by omega) (by omega)]
    · have hieq : i = P.maxRetries := by omega
      have hfuel : fuel = 0 := by omega
      rw [if_neg (by intro hc; exact hi hc.1), hieq, hfuel]

theorem runFrom_all_exn_retry {α : Type} (P : ReqParams α) (nm ms : Nat → String)
    (hatt : ∀ i, P.attempts i = .exn (nm i) (ms i))
    (hm : shouldRetryMethod P.method = true) :
    ∀ (fuel i : Nat) (le : Option (String × String)),
      i + fuel = P.maxRetries + 1 → i ≤ P.maxRetries →
      runFrom P fuel i le =
        ⟨.error (.typed (convertCaught P P.maxRetries (nm P.maxRetries) (ms P.maxRetries))),
          fuel⟩ := by
  intro fuel
  induction fuel with
  | zero => intro i le h hle; omega
  | succ fuel ih =>
    intro i le h hle
    rw [runFrom]
    simp only [hatt i]
    by_cases hi : i < P.maxRetries
    · rw [if_pos ⟨hi, hm⟩, ih (i + 1) (some (nm i, ms i)) (by omega) (by omega)]
    · have hieq : i = P.maxRetries := by omega
      have hfuel : fuel = 0 := by omega
      rw [if_neg (by intro hc; exact hi hc.1), hieq, hfuel]

theorem runFrom_exn_no_retry {α : Type} (P : ReqParams α) (name msg : String)
    (fuel i : Nat) (le : Option (String × String))
    (hatt : P.attempts i = .exn name msg)
    (hm : shouldRetryMethod P.method = false) :
    runFrom P (fuel + 1) i le = ⟨.error (.typed (convertCaught P i name msg)), 1⟩ := by
  rw [runFrom]
  simp only [hatt]
  rw [if_neg (by simp [hm])]

theorem runFrom_error_typed {α : Type} (P : ReqParams α) :
    ∀ (fuel i : Nat) (le : Option (String × String)) (e : ExecErr),
      (runFrom P fuel i le).result = .error e → ∃ se, e = .typed se := by
  intro fuel
  induction fuel with
  | zero =>
    intro i le e h
    rw [runFrom] at h
    exact ⟨_, (Except.error.inj h).symm⟩
  | succ fuel ih =>
    intro i le e h
    rw [runFrom] at h
    cases hatt : P.attempts i with
    | exn name msg =>
      simp only [hatt] at h
      split_ifs at h with h1
      · exact ih (i + 1) (some (name, msg)) e h
      · exact ⟨_, (Except.error.inj h).symm⟩
    | response status hdrs body =>
      simp only [hatt] at h
      by_cases hok : ¬(200 ≤ status ∧ status ≤ 299)
      · rw [if_pos hok] at h
        split_ifs at h with h1
        · exact ih (i + 1) le e h
        · exact ⟨_, (Except.error.inj h).symm⟩
      · rw [if_neg hok] at h
        by_cases h204 : status = 204
        · rw [if_pos h204] at h; cases h
        · rw [if_neg h204] at h
          by_cases hhead : P.method = "HEAD"
          · rw [if_pos hhead] at h; cases h
          · rw [if_neg hhead] at h
            cases body with
            | ok v => cases h
            | error ex =>
              simp only at h
              split_ifs at h with h3
              · exact ih (i + 1) (some ex) e h
              · exact ⟨_, (Except.error.inj h).symm⟩

/-- C1: for a request whose every attempt yields the same non-2xx status,
the executor retries exactly while attempts remain and the status-retry
condition (`status ∈ RETRY_STATUS_CODES` or POST with a supplied
idempotency token and `status ≥ 500`) holds — consuming all
`maxRetries + 1` attempts when it does and exactly one when it does not —
and raises the classified error of the final attempt.  The condition is
false at 400 for every method, so a 400 response is raised immediately
and the endpoint is called exactly once regardless of the configured
retry count. -/
theorem c1_retry_decision {α : Type} (P : ReqParams α) (s : Nat)
    (hdrs : List (String × String)) (body : Except (String × String) α)
    (hatt : ∀ i, P.attempts i = .response s hdrs body)
    (hok : ¬(200 ≤ s ∧ s ≤ 299)) :
    (performRequest P).calls =
      (if retryCondition P.method P.idempotencyKey s = true then P.maxRetries + 1 else 1) ∧
    (performRequest P).result = .error (.typed (fromResponse s hdrs
      (attemptCtx P (if retryCondition P.method P.idempotencyKey s = true
        then P.maxRetries else 0)) P.now)) ∧
    (∀ (m : String) (k : Option String), retryCondition m k 400 = false) ∧
    (s = 400 → (performRequest P).calls = 1) := by
  have hc400 : ∀ (m : String) (k : Option String), retryCondition m k 400 = false := by
    intro m k
    simp [retryCondition, RETRY_STATUS_CODES]
  by_cases hcond : retryCondition P.method P.idempotencyKey s = true
  · have hrun := runFrom_const_fail_retry P s hdrs body hatt hok hcond
      (P.maxRetries + 1) 0 none (by omega) (by omega)
    rw [performRequest, hrun]
    refine ⟨by simp [hcond], by simp [hcond], hc400, ?_⟩
    rintro rfl
    rw [hc400 P.method P.idempotencyKey] at hcond
    cases hcond
  · have hcond' : retryCondition P.method P.idempotencyKey s = false := by
      cases hcn : retryCondition P.method P.idempotencyKey s
      · rfl
      · exact absurd hcn hcond
    have hrun := runFrom_const_fail_no_retry P s hdrs body P.maxRetries 0 none (hatt 0) hok hcond'
    rw [performRequest, hrun]
    exact ⟨by simp [hcond], by simp [hcond], hc400, fun _ => rfl⟩

/-- Parameters of a run in which every attempt aborts (the fetch timeout
fires each time). -/
def c2paramsW : ReqParams Nat :=
  { method := "GET", idempotencyKey := none, url := "u", timeoutMs := 30, maxRetries := 3,
    now := 0, attempts := fun _ => .exn "AbortError" "aborted" }

/-- C2: every terminal failure of the executor is a typed `SDKError`
(never a raw exception), and a run whose attempts all throw raw
exceptions terminates with the conversion of the final caught exception:
a Timeout error when it was an abort, a Network error wrapping the cause
otherwise. -/
theorem c2_typed_error_boundary {α : Type} (P : ReqParams α) :
    (∀ e : ExecErr, (performRequest P).result = .error e → ∃ se, e = .typed se) ∧
    (∀ name msg : String, (∀ i, P.attempts i = .exn name msg) →
      (performRequest P).result = .error (.typed (
        if name = "AbortError" then
          .timeout ("Request timed out after " ++ toString P.timeoutMs ++ "ms") P.timeoutMs
            (attemptCtx P (if shouldRetryMethod P.method = true then P.maxRetries else 0))
        else
          .network ("Request failed: " ++ msg) (some name)
            (attemptCtx P (if shouldRetryMethod P.method = true then P.maxRetries else 0))))) := by
  constructor
  · intro e h
    exact runFrom_error_typed P (P.maxRetries + 1) 0 none e h
  · intro name msg hatt
    by_cases hm : shouldRetryMethod P.method = true
    · have hrun := runFrom_all_exn_retry P (fun _ => name) (fun _ => msg) hatt hm
        (P.maxRetries + 1) 0 none (by omega) (by omega)
      rw [performRequest, hrun]
      simp [convertCaught, hm]
    · have hm' : shouldRetryMethod P.method = false := by
        cases hc : shouldRetryMethod P.method
        · rfl
        · exact absurd hc hm
      have hrun := runFrom_exn_no_retry P name msg P.maxRetries 0 none (hatt 0) hm'
      rw [performRequest, hrun]
      simp [convertCaught, hm']

/-- Witness for C2: the all-abort run yields the Timeout conversion, and
that terminal failure is typed. -/
theorem c2_typed_error_boundary_witness :
    (performRequest c2paramsW).result =
      .error (.typed (.timeout "Request timed out after 30ms" 30
        { method := some "GET", url := some "u", requestId := none, retryCount := some 3 })) ∧
    ∃ se, (ExecErr.typed (.timeout "Request timed out after 30ms" 30
      { method := some "GET", url := some "u", requestId := none,
        retryCount := some 3 })) = .typed se := by
  constructor
  · have h := (c2_typed_error_boundary c2paramsW).2 "AbortError" "aborted" (fun _ => rfl)
    simpa using h
  · exact (c2_typed_error_boundary c2paramsW).1 _ (by decide)

/-- Parameters of a run in which every attempt is answered with 400. -/
def c1paramsW : ReqParams Nat :=
  { method := "POST", idempotencyKey := none, url := "u", timeoutMs := 30, maxRetries := 5,
    now := 0, attempts := fun _ => .response 400 [] (.ok 0) }

/-- Witness for C1: five retries configured, a constant 400 endpoint is
called exactly once and the validation error is raised. -/
theorem c1_retry_decision_witness :
    (performRequest c1paramsW).calls = 1 ∧
    retryCondition "POST" (some "tok") 400 = false ∧
    (performRequest c1paramsW).result =
      .error (.typed (.validation "The request was invalid"
        { method := some "POST", url := some "u", requestId := none, retryCount := some 0 })) :=
  ⟨(c1_retry_decision c1paramsW 400 [] (.ok 0) (fun _ => rfl) (by decide)).2.2.2 rfl,
   (c1_retry_decision c1paramsW 400 [] (.ok 0) (fun _ => rfl) (by decide)).2.2.1 "POST"
     (some "tok"),
   by
     have h := (c1_retry_decision c1paramsW 400 [] (.ok 0) (fun _ => rfl) (by decide)).2.1
     simpa using h⟩

/-- A PATCH request answered 500 then 200: C7 claims the 500 is raised
immediately without retry, but the status-retry condition has no method
restriction. -/
def c7paramsW : ReqParams Nat :=
  { method := "PATCH", idempotencyKey := none, url := "u", timeoutMs := 30, maxRetries := 1,
    now := 0,
    attempts := fun i => if i = 0 then .response 500 [] (.ok 0) else .response 200 [] (.ok 42) }

/-- C7 counterexample: the PATCH request that receives a 500 is retried
(the endpoint is called twice and the run succeeds), not raised
immediately after one call as the claim states. -/
theorem c7_counterexample :
    performRequest c7paramsW = ⟨.ok (.json 42), 2⟩ ∧ (2 : Nat) ≠ 1 :=
  ⟨by decide, by decide⟩

/-- C7 (amended): a retryable status (408/429/500/502/503/504) is retried
for **every** request method, including plain POST and PATCH — the
idempotent-method restriction (GET/PUT/DELETE/HEAD) governs only
transport-level failures, which are retried exactly when the method is
idempotent; and a POST carrying a truthy idempotency key is additionally
retried on any status ≥ 500. -/
theorem c7_status_retry_amended {α : Type} (P : ReqParams α) :
    (∀ (s : Nat) (hdrs : List (String × String)) (body : Except (String × String) α),
        RETRY_STATUS_CODES.contains s = true →
        (∀ i, P.attempts i = .response s hdrs body) →
        (performRequest P).calls = P.maxRetries + 1) ∧
    (∀ (s : Nat) (hdrs : List (String × String)) (body : Except (String × String) α),
        P.method = "POST" → strTruthy P.idempotencyKey = true → 500 ≤ s →
        (∀ i, P.attempts i = .response s hdrs body) →
        (performRequest P).calls = P.maxRetries + 1) ∧
    (∀ nm ms : Nat → String, (∀ i, P.attempts i = .exn (nm i) (ms i)) →
        (performRequest P).calls =
          if shouldRetryMethod P.method = true then P.maxRetries + 1 else 1) := by
  refine ⟨?_, ?_, ?_⟩
  · intro s hdrs body hmem hatt
    have hd : s = 408 ∨ s = 429 ∨ s = 500 ∨ s = 502 ∨ s = 503 ∨ s = 504 := by
      simpa [RETRY_STATUS_CODES] using hmem
    have hok : ¬(200 ≤ s ∧ s ≤ 299) := by
      rcases hd with rfl | rfl | rfl | rfl | rfl | rfl <;> decide
    have hcond : retryCondition P.method P.idempotencyKey s = true := by
      rcases hd with rfl | rfl | rfl | rfl | rfl | rfl <;>
        simp [retryCondition, RETRY_STATUS_CODES]
    rw [performRequest, runFrom_const_fail_retry P s hdrs body hatt hok hcond
      (P.maxRetries + 1) 0 none (by omega) (by omega)]
  · intro s hdrs body hpost hkey hs hatt
    have hok : ¬(200 ≤ s ∧ s ≤ 299) := by omega
    have hcond : retryCondition P.method P.idempotencyKey s = true := by
      simp [retryCondition, hpost, hkey, hs]
    rw [performRequest, runFrom_const_fail_retry P s hdrs body hatt hok hcond
      (P.maxRetries + 1) 0 none (by omega) (by omega)]
  · intro nm ms hatt
    by_cases hm : shouldRetryMethod P.method = true
    · rw [performRequest, runFrom_all_exn_retry P nm ms hatt hm
        (P.maxRetries + 1) 0 none (by omega) (by omega)]
      simp [hm]
    · have hm' : shouldRetryMethod P.method = false := by
        cases hc : shouldRetryMethod P.method
        · rfl
        · exact absurd hc hm
      rw [performRequest, runFrom_exn_no_retry P (nm 0) (ms 0) P.maxRetries 0 none (hatt 0) hm']
      simp [hm']

/-- Parameters for the C7 witness: a plain POST answered 500 forever. -/
def c7amParamsW : ReqParams Nat :=
  { method := "POST", idempotencyKey := none, url := "u", timeoutMs := 30, maxRetries := 2,
    now := 0, attempts := fun _ => .response 500 [] (.ok 0) }

/-- Parameters for the C7 witness: a plain POST whose every attempt fails
at the transport level. -/
def c7exnParamsW : ReqParams Nat :=
  { method := "POST", idempotencyKey := none, url := "u", timeoutMs := 30, maxRetries := 2,
    now := 0, attempts := fun _ => .exn "E" "boom" }

/-- Witness for C7 (amended): the plain POST on constant 500 consumes all
three attempts, and a POST on constant transport failure is not retried. -/
theorem c7_status_retry_amended_witness :
    (performRequest c7amParamsW).calls = 2 + 1 ∧
    (performRequest c7exnParamsW).calls = 1 :=
  ⟨(c7_status_retry_amended c7amParamsW).1 500 [] (.ok 0) (by decide) (fun _ => rfl),
   by
     have h := (c7_status_retry_amended c7exnParamsW).2.2
       (fun _ => "E") (fun _ => "boom") (fun _ => rfl)
     rw [h]
     decide⟩

/-- A GET whose both attempts fail at the transport level with distinct
messages; `maxRetries = 1`, so both attempts are consumed. -/
def c8paramsW : ReqParams Nat :=
  { method := "GET", idempotencyKey := none, url := "u", timeoutMs := 30, maxRetries := 1,
    now := 0,
    attempts := fun i => .exn "E" (if i = 0 then "boom0" else "boom1") }

/-- C8 counterexample: with every attempt a transport failure and all
attempts consumed, the executor raises the per-attempt conversion of the
**last** failure (`Request failed: boom1`, retry count 1) — not the
generic `Request failed after 2 attempts` Network error with retry count
`maxRetries + 1` that the claim describes (that construction is the dead
code after the loop). -/
theorem c8_counterexample :
    performRequest c8paramsW =
      ⟨.error (.typed (.network "Request failed: boom1" (some "E")
        { method := some "GET", url := some "u", requestId := none, retryCount := some 1 })),
       2⟩ ∧
    SDKErr.network "Request failed: boom1" (some "E")
        { method := some "GET", url := some "u", requestId := none, retryCount := some 1 } ≠
      SDKErr.network ("Request failed after " ++ toString (1 + 1) ++ " attempts") (some "E")
        { method := some "GET", url := some "u", requestId := none, retryCount := some 2 } :=
  ⟨by decide, by decide⟩

/-- C8 (amended): when every attempt of an idempotent-method request
fails at the transport level and all attempts are consumed, the executor
raises the conversion of the **last** attempt's failure — a Timeout for
an abort, otherwise a Network error with message
`Request failed: <cause>` wrapping the last cause — with retry count
`maxRetries`, after `maxRetries + 1` endpoint calls; the generic
"max retries exceeded" Network error (attempt count `maxRetries + 1`) is
never raised. -/
theorem c8_exhausted_transport_amended {α : Type} (P : ReqParams α) (nm ms : Nat → String)
    (hatt : ∀ i, P.attempts i = .exn (nm i) (ms i))
    (hm : shouldRetryMethod P.method = true) :
    performRequest P =
      ⟨.error (.typed (convertCaught P P.maxRetries (nm P.maxRetries) (ms P.maxRetries))),
       P.maxRetries + 1⟩ ∧
    (nm P.maxRetries ≠ "AbortError" →
      performRequest P = ⟨.error (.typed (.network ("Request failed: " ++ ms P.maxRetries)
        (some (nm P.maxRetries)) (attemptCtx P P.maxRetries))), P.maxRetries + 1⟩) ∧
    (∀ (cause : Option String) (ctx2 : ErrorContext), ctx2.retryCount = some (P.maxRetries + 1) →
      (performRequest P).result ≠ .error (.typed (.network
        ("Request failed after " ++ toString (P.maxRetries + 1) ++ " attempts") cause ctx2))) := by
  have hrun := runFrom_all_exn_retry P nm ms hatt hm (P.maxRetries + 1) 0 none
    (by omega) (by omega)
  have hfirst : performRequest P =
      ⟨.error (.typed (convertCaught P P.maxRetries (nm P.maxRetries) (ms P.maxRetries))),
       P.maxRetries + 1⟩ := by
    rw [performRequest, hrun]
  refine ⟨hfirst, ?_, ?_⟩
  · intro habort
    rw [hfirst, convertCaught, if_neg habort]
  · intro cause ctx2 hctx heq
    rw [hfirst] at heq
    by_cases habort : nm P.maxRetries = "AbortError"
    · rw [convertCaught, if_pos habort] at heq
      simp at heq
    · rw [convertCaught, if_neg habort] at heq
      simp only [Except.error.injEq, ExecErr.typed.injEq, SDKErr.network.injEq] at heq
      obtain ⟨-, -, hc⟩ := heq
      rw [← hc] at hctx
      simp [attemptCtx] at hctx

/-- Witness for C8 (amended) at the concrete all-transport-failure run. -/
theorem c8_exhausted_transport_amended_witness :
    performRequest c8paramsW =
      ⟨.error (.typed (.network "Request failed: boom1" (some "E")
        { method := some "GET", url := some "u", requestId := none, retryCount := some 1 })),
       2⟩ ∧
    (performRequest c8paramsW).result ≠ .error (.typed (.network
      ("Request failed after " ++ toString (1 + 1) ++ " attempts") (some "E")
      { method := some "GET", url := some "u", requestId := none, retryCount := some 2 })) := by
  have h := c8_exhausted_transport_amended c8paramsW (fun _ => "E")
    (fun i => if i = 0 then "boom0" else "boom1") (fun _ => rfl) rfl
  constructor
  · have h2 := h.2.1 (by decide)
    exact h2.trans (by decide)
  · exact h.2.2 (some "E")
      { method := some "GET", url := some "u", requestId := none, retryCount := some 2 } rfl

theorem mapSet_of_not_mem {β : Type} {k : String} {v : β} {m : List (String × β)}
    (h : k ∉ mapKeys m) : mapSet k v m = m ++ [(k, v)] := by
  induction m with
  | nil => rfl
  | cons e es ih =>
    simp only [mapKeys, List.map_cons, List.mem_cons, not_or] at h
    simp only [mapSet, if_neg (Ne.symm h.1), List.cons_append]
    rw [ih (by simpa [mapKeys] using h.2)]

theorem mapDelete_append_of_mem {β : Type} {k : String} {m m' : List (String × β)}
    (h : k ∈ mapKeys m) : mapDelete k (m ++ m') = mapDelete k m ++ m' := by
  induction m with
  | nil => simp [mapKeys] at h
  | cons e es ih =>
    by_cases he : e.1 = k
    · simp [mapDelete, he]
    · simp only [mapKeys, List.map_cons, List.mem_cons] at h
      rcases h with h | h
      · exact absurd h.symm he
      · simp only [List.cons_append, mapDelete, if_neg he]
        exact congrArg (fun l => e :: l) (ih (by simpa [mapKeys] using h))

theorem length_mapDelete_of_mem {β : Type} {k : String} {m : List (String × β)}
    (h : k ∈ mapKeys m) : (mapDelete k m).length + 1 = m.length := by
  have h1 : (mapKeys (mapDelete k m)).length + 1 = (mapKeys m).length := by
    rw [mapKeys_mapDelete]
    exact length_eraseFirst_of_mem h
  simpa [length_mapKeys] using h1

theorem evictLoop_noop {α : Type} (n : Nat) (ao : List String)
    (m : List (String × CacheEntry α)) (hlen : m.length ≤ n) : evictLoop n ao m = (ao, m) := by
  cases ao with
  | nil => rfl
  | cons k rest => rw [evictLoop, if_neg (by omega)]

theorem wfp_nil_map {α : Type} {m : List (String × CacheEntry α)} (h : WfP [] m) : m = [] := by
  have : mapKeys m = [] := by
    by_contra hne
    rcases List.exists_mem_of_ne_nil _ hne with ⟨j, hj⟩
    exact (List.not_mem_nil j) ((h.2.2 j).mpr hj)
  simpa [mapKeys] using this

theorem evictLoop_wf {α : Type} (n : Nat) :
    ∀ (ao : List String) (m : List (String × CacheEntry α)), WfP ao m →
      WfP (evictLoop n ao m).1 (evictLoop n ao m).2 ∧ (evictLoop n ao m).2.length ≤ n := by
  intro ao
  induction ao with
  | nil =>
    intro m hwf
    have hm := wfp_nil_map hwf
    subst hm
    exact ⟨hwf, by simp [evictLoop]⟩
  | cons k rest ih =>
    intro m hwf
    obtain ⟨hao, hkeys, hmem⟩ := hwf
    have hknr : k ∉ rest := (List.nodup_cons.mp hao).1
    have hrest : rest.Nodup := (List.nodup_cons.mp hao).2
    by_cases hlen : m.length > n
    · have hkm : k ∈ mapKeys m := (hmem k).mp (List.mem_cons_self k rest)
      have hwf' : WfP rest (mapDelete k m) := by
        refine ⟨hrest, by rw [mapKeys_mapDelete]; exact nodup_eraseFirst hkeys, ?_⟩
        intro j
        rw [mapKeys_mapDelete, mem_eraseFirst_iff hkeys]
        constructor
        · intro hj
          refine ⟨(hmem j).mp (List.mem_cons_of_mem k hj), ?_⟩
          rintro rfl; exact hknr hj
        · rintro ⟨hj, hne⟩
          cases List.mem_cons.mp ((hmem j).mpr hj) with
          | inl hh => exact absurd hh hne
          | inr hh => exact hh
      rw [evictLoop, if_pos hlen]
      exact ih (mapDelete k m) hwf'
    · rw [evictLoop, if_neg hlen]
      exact ⟨⟨hao, hkeys, hmem⟩, Nat.le_of_not_lt hlen⟩

theorem updateAccessOrder_wf {α : Type} (c : LRUCache α) (k : String) (hwf : c.Wf) :
    (c.updateAccessOrder k).Wf := by
  obtain ⟨hao, hkeys, hmem⟩ := hwf
  rw [LRUCache.updateAccessOrder]
  by_cases hk : k ∈ c.accessOrder
  · rw [if_pos hk]
    refine ⟨?_, hkeys, ?_⟩
    · simp only [List.nodup_append, List.nodup_cons, List.not_mem_nil, not_false_iff,
        List.nodup_nil, and_true, true_and]
      exact ⟨nodup_eraseFirst hao, by simpa using not_mem_eraseFirst_self hao⟩
    · intro j
      simp only [List.mem_append, List.mem_singleton, mem_eraseFirst_iff hao]
      constructor
      · rintro (⟨hj, -⟩ | rfl)
        · exact (hmem j).mp hj
        · exact (hmem j).mp hk
      · intro hj
        by_cases hjk : j = k
        · exact Or.inr hjk
        · exact Or.inl ⟨(hmem j).mpr hj, hjk⟩
  · rw [if_neg hk]
    exact ⟨hao, hkeys, hmem⟩

theorem delete_wf {α : Type} (c : LRUCache α) (k : String) (hwf : c.Wf) :
    (c.delete k).2.Wf := by
  obtain ⟨hao, hkeys, hmem⟩ := hwf
  refine ⟨nodup_eraseFirst hao, ?_, ?_⟩
  · show (mapKeys (mapDelete k c.cache)).Nodup
    rw [mapKeys_mapDelete]
    exact nodup_eraseFirst hkeys
  · intro j
    show j ∈ eraseFirst k c.accessOrder ↔ j ∈ mapKeys (mapDelete k c.cache)
    rw [mapKeys_mapDelete, mem_eraseFirst_iff hao, mem_eraseFirst_iff hkeys]
    exact and_congr_left (fun _ => hmem j)

theorem get_wf {α : Type} (c : LRUCache α) (now : Nat) (k : String) (hwf : c.Wf) :
    (c.get now k).2.Wf := by
  rw [LRUCache.get]
  split
  · exact hwf
  · split
    · exact delete_wf c k hwf
    · exact updateAccessOrder_wf c k hwf

theorem getEntry_wf {α : Type} (c : LRUCache α) (now : Nat) (k : String) (hwf : c.Wf) :
    (c.getEntry now k).2.Wf := by
  rw [LRUCache.getEntry]
  split
  · exact hwf
  · split
    · exact delete_wf c k hwf
    · exact updateAccessOrder_wf c k hwf

theorem has_wf {α : Type} (c : LRUCache α) (now : Nat) (k : String) (hwf : c.Wf) :
    (c.has now k).2.Wf := by
  rw [LRUCache.has]
  split
  · exact hwf
  · split
    · exact delete_wf c k hwf
    · exact hwf

theorem set_pre_wf {α : Type} (c : LRUCache α) (k : String) (v : CacheEntry α) (hwf : c.Wf) :
    WfP ((if (mapGet k c.cache).isSome then eraseFirst k c.accessOrder
      else c.accessOrder) ++ [k]) (mapSet k v c.cache) := by
  obtain ⟨hao, hkeys, hmem⟩ := hwf
  by_cases hk : k ∈ mapKeys c.cache
  · have hks : (mapGet k c.cache).isSome = true := mapGet_isSome_iff.mpr hk
    have hkao : k ∈ c.accessOrder := (hmem k).mpr hk
    rw [if_pos hks]
    refine ⟨?_, ?_, ?_⟩
    · simp only [List.nodup_append, List.nodup_cons, List.not_mem_nil, not_false_iff,
        List.nodup_nil, and_true, true_and]
      exact ⟨nodup_eraseFirst hao, by simpa using not_mem_eraseFirst_self hao⟩
    · rw [mapKeys_mapSet, if_pos hk]
      exact hkeys
    · intro j
      rw [mapKeys_mapSet, if_pos hk]
      simp only [List.mem_append, List.mem_singleton, mem_eraseFirst_iff hao]
      constructor
      · rintro (⟨hj, -⟩ | rfl)
        · exact (hmem j).mp hj
        · exact hk
      · intro hj
        by_cases hjk : j = k
        · exact Or.inr hjk
        · exact Or.inl ⟨(hmem j).mpr hj, hjk⟩
  · have hks : (mapGet k c.cache).isSome = false := by
      rw [mapGet_eq_none.mpr hk]
      rfl
    have hkao : k ∉ c.accessOrder := fun hc => hk ((hmem k).mp hc)
    rw [hks, if_neg (by simp)]
    refine ⟨?_, ?_, ?_⟩
    · simp only [List.nodup_append, List.nodup_cons, List.not_mem_nil, not_false_iff,
        List.nodup_nil, and_true, true_and]
      exact ⟨hao, by simpa using hkao⟩
    · rw [mapKeys_mapSet, if_neg hk]
      simp only [List.nodup_append, List.nodup_cons, List.not_mem_nil, not_false_iff,
        List.nodup_nil, and_true, true_and]
      exact ⟨hkeys, by simpa using hk⟩
    · intro j
      rw [mapKeys_mapSet, if_neg hk]
      simp only [List.mem_append, List.mem_singleton]
      exact or_congr_left (hmem j)

theorem set_wf {α : Type} (c : LRUCache α) (now : Nat) (k : String) (d : α)
    (etag : Option String) (ttl : Option Nat) (hwf : c.Wf) :
    (c.set now k d etag ttl).Wf ∧ (c.set now k d etag ttl).size ≤ c.maxSize := by
  have hpre := set_pre_wf c k
    { data := d, etag := etag, timestamp := now, ttl := ttl.getD c.defaultTTL } hwf
  have hev := evictLoop_wf c.maxSize _ _ hpre
  exact ⟨hev.1, hev.2⟩

theorem clear_wf {α : Type} (c : LRUCache α) : c.clear.Wf := by
  exact ⟨List.nodup_nil, List.nodup_nil, by simp [LRUCache.clear, mapKeys]⟩

theorem invalidatePattern_wf {α : Type} (c : LRUCache α) (p : String → Bool) (hwf : c.Wf) :
    (c.invalidatePattern p).Wf := by
  rw [LRUCache.invalidatePattern]
  generalize mapKeys c.cache = l
  induction l generalizing c with
  | nil => exact hwf
  | cons a as ih =>
    simp only [List.foldl_cons]
    by_cases hp : p a = true
    · rw [if_pos hp]
      exact ih _ (delete_wf c a hwf)
    · rw [if_neg hp]
      exact ih _ hwf

/-- C10: on a well-formed cache state (access order = keys of the entry
map, each exactly once, no duplicates) every operation — `get`,
`getEntry`, `set`, `has`, `delete`, `clear`, `invalidatePattern` —
returns a well-formed state again, and after a `set` the stored-entry
count never exceeds `maxSize` (each eviction step removes the
least-recently-used key, which well-formedness guarantees is actually
stored). -/
theorem c10_cache_invariant {α : Type} (c : LRUCache α) (hwf : c.Wf) :
    (∀ (now : Nat) (k : String), (c.get now k).2.Wf) ∧
    (∀ (now : Nat) (k : String), (c.getEntry now k).2.Wf) ∧
    (∀ (now : Nat) (k : String), (c.has now k).2.Wf) ∧
    (∀ k : String, (c.delete k).2.Wf) ∧
    c.clear.Wf ∧
    (∀ p : String → Bool, (c.invalidatePattern p).Wf) ∧
    (∀ (now : Nat) (k : String) (d : α) (etag : Option String) (ttl : Option Nat),
        (c.set now k d etag ttl).Wf ∧ (c.set now k d etag ttl).size ≤ c.maxSize) :=
  ⟨fun now k => get_wf c now k hwf,
   fun now k => getEntry_wf c now k hwf,
   fun now k => has_wf c now k hwf,
   fun k => delete_wf c k hwf,
   clear_wf c,
   fun p => invalidatePattern_wf c p hwf,
   fun now k d etag ttl => set_wf c now k d etag ttl hwf⟩

/-- A concrete well-formed two-entry cache at capacity. -/
def c10cacheW : LRUCache Nat :=
  { cache := [("a", { data := 1, etag := none, timestamp := 0, ttl := 50 }),
              ("b", { data := 2, etag := none, timestamp := 0, ttl := 50 })],
    accessOrder := ["a", "b"], maxSize := 2, defaultTTL := 100 }

/-- Witness for C10 at the concrete cache. -/
theorem c10_cache_invariant_witness :
    (c10cacheW.get 10 "a").2.Wf ∧
    (c10cacheW.delete "a").2.Wf ∧
    (c10cacheW.set 10 "c" 3 none none).Wf ∧
    (c10cacheW.set 10 "c" 3 none none).size ≤ 2 :=
  ⟨(c10_cache_invariant c10cacheW (by decide)).1 10 "a",
   (c10_cache_invariant c10cacheW (by decide)).2.2.2.1 "a",
   ((c10_cache_invariant c10cacheW (by decide)).2.2.2.2.2.2 10 "c" 3 none none).1,
   ((c10_cache_invariant c10cacheW (by decide)).2.2.2.2.2.2 10 "c" 3 none none).2⟩

theorem wf_ao_length {α : Type} (c : LRUCache α) (hwf : c.Wf) :
    c.accessOrder.length = c.size := by
  obtain ⟨hao, hkeys, hmem⟩ := hwf
  have hperm : List.Perm c.accessOrder (mapKeys c.cache) :=
    (List.perm_ext_iff_of_nodup hao hkeys).mpr hmem
  rw [hperm.length_eq, length_mapKeys]
  rfl

theorem lru_set_evict_head {α : Type} (c : LRUCache α) (now : Nat) (k : String) (d : α)
    (etag : Option String) (ttl : Option Nat) (h : String) (rest : List String)
    (hwf : c.Wf) (hsize : c.size = c.maxSize) (hk : k ∉ mapKeys c.cache)
    (hao : c.accessOrder = h :: rest) :
    (c.set now k d etag ttl).cache =
      mapDelete h c.cache ++ [(k, ⟨d, etag, now, ttl.getD c.defaultTTL⟩)] ∧
    (c.set now k d etag ttl).accessOrder = rest ++ [k] := by
  obtain ⟨haoN, hkeysN, hmem⟩ := hwf
  have hks : mapGet k c.cache = none := mapGet_eq_none.mpr hk
  have hhk : h ∈ mapKeys c.cache := (hmem h).mp (by rw [hao]; exact List.mem_cons_self h rest)
  have hm1 : mapSet k (⟨d, etag, now, ttl.getD c.defaultTTL⟩ : CacheEntry α) c.cache =
      c.cache ++ [(k, ⟨d, etag, now, ttl.getD c.defaultTTL⟩)] := mapSet_of_not_mem hk
  have hclen : c.cache.length = c.maxSize := hsize
  have hstep : evictLoop c.maxSize (c.accessOrder ++ [k])
      (c.cache ++ [(k, (⟨d, etag, now, ttl.getD c.defaultTTL⟩ : CacheEntry α))]) =
      (rest ++ [k], mapDelete h c.cache ++ [(k, ⟨d, etag, now, ttl.getD c.defaultTTL⟩)]) := by
    rw [hao, List.cons_append, evictLoop,
      if_pos (by simp only [List.length_append, List.length_cons, List.length_nil]; omega)]
    rw [mapDelete_append_of_mem hhk]
    apply evictLoop_noop
    have hdel : (mapDelete h c.cache).length + 1 = c.cache.length :=
      length_mapDelete_of_mem hhk
    simp only [List.length_append, List.length_cons, List.length_nil]
    omega
  constructor
  · show (evictLoop c.maxSize _ _).2 = _
    rw [hks]
    simp only [Option.isSome_none, Bool.false_eq_true, if_false, hm1, hstep]
  · show (evictLoop c.maxSize _ _).1 = _
    rw [hks]
    simp only [Option.isSome_none, Bool.false_eq_true, if_false, hm1, hstep]

theorem mapKeys_append {β : Type} {m m' : List (String × β)} :
    mapKeys (m ++ m') = mapKeys m ++ mapKeys m' := List.map_append _ _ _

theorem get_live_snd {α : Type} (c : LRUCache α) (now : Nat) (j : String) (e' : CacheEntry α)
    (hj : mapGet j c.cache = some e') (hlive : ¬(e'.timestamp + e'.ttl < now)) :
    (c.get now j).2 = c.updateAccessOrder j := by
  simp only [LRUCache.get, hj, if_neg hlive]

/-- C4: the response cache defaults to 100 entries, never holds more than
`maxSize` entries after a `set`, and evicts in strict LRU order by
access: inserting a fresh key into a full cache evicts exactly the head
of the access order (the least-recently-accessed key), keeping every
other entry; and touching a key via `get` immediately before the
eviction-triggering insert protects that key from eviction. -/
theorem c4_lru_eviction {α : Type} (c : LRUCache α) (hwf : c.Wf) :
    (LRUCache.new α none none).maxSize = 100 ∧
    (∀ (now : Nat) (k : String) (d : α) (etag : Option String) (ttl : Option Nat),
        (c.set now k d etag ttl).size ≤ c.maxSize) ∧
    (∀ (now : Nat) (k : String) (d : α) (etag : Option String) (ttl : Option Nat)
        (h : String) (rest : List String),
        c.size = c.maxSize → k ∉ mapKeys c.cache → c.accessOrder = h :: rest →
        mapKeys (c.set now k d etag ttl).cache = eraseFirst h (mapKeys c.cache) ++ [k] ∧
        (c.set now k d etag ttl).accessOrder = rest ++ [k]) ∧
    (∀ (now now' : Nat) (j k : String) (d : α) (etag : Option String) (ttl : Option Nat)
        (e' : CacheEntry α),
        c.size = c.maxSize → 2 ≤ c.size →
        mapGet j c.cache = some e' → ¬(e'.timestamp + e'.ttl < now) →
        k ∉ mapKeys c.cache →
        j ∈ mapKeys (((c.get now j).2).set now' k d etag ttl).cache) := by
  refine ⟨rfl, ?_, ?_, ?_⟩
  · intro now k d etag ttl
    exact (set_wf c now k d etag ttl hwf).2
  · intro now k d etag ttl h rest hsize hk hao
    obtain ⟨h1, h2⟩ := lru_set_evict_head c now k d etag ttl h rest hwf hsize hk hao
    refine ⟨?_, h2⟩
    rw [h1, mapKeys_append, mapKeys_mapDelete]
    rfl
  · intro now now' j k d etag ttl e' hsize hsize2 hj hlive hk
    have hjk : j ∈ mapKeys c.cache := mapGet_isSome_iff.mp (by rw [hj]; rfl)
    have hjao : j ∈ c.accessOrder := (hwf.2.2 j).mpr hjk
    have hgl := get_live_snd c now j e' hj hlive
    have hup : c.updateAccessOrder j =
        { c with accessOrder := eraseFirst j c.accessOrder ++ [j] } := by
      rw [LRUCache.updateAccessOrder, if_pos hjao]
    have hwf1 : (c.updateAccessOrder j).Wf := updateAccessOrder_wf c j hwf
    have hlenEF : (eraseFirst j c.accessOrder).length + 1 = c.accessOrder.length :=
      length_eraseFirst_of_mem hjao
    have haolen : c.accessOrder.length = c.size := wf_ao_length c hwf
    cases hEF : eraseFirst j c.accessOrder with
    | nil =>
      rw [hEF] at hlenEF
      simp only [List.length_nil] at hlenEF
      omega
    | cons hd tl =>
      have hao1 : (c.updateAccessOrder j).accessOrder = hd :: (tl ++ [j]) := by
        rw [hup, hEF]
        rfl
      have hdne : hd ≠ j := by
        have : hd ∈ eraseFirst j c.accessOrder := by rw [hEF]; exact List.mem_cons_self hd tl
        exact ((mem_eraseFirst_iff hwf.1).mp this).2
      have hcache1 : (c.updateAccessOrder j).cache = c.cache := by rw [hup]
      obtain ⟨h1, -⟩ := lru_set_evict_head (c.updateAccessOrder j) now' k d etag ttl hd
        (tl ++ [j]) hwf1 (by rw [hup]; exact hsize) (by rw [hcache1]; exact hk) hao1
      rw [hgl, h1, hcache1, mapKeys_append, mapKeys_mapDelete]
      apply List.mem_append_left
      rw [mem_eraseFirst_iff hwf.2.1]
      exact ⟨hjk, Ne.symm hdne⟩

/-- A concrete full two-entry cache for the C4 witness. -/
def c4cacheW : LRUCache Nat :=
  { cache := [("a", { data := 1, etag := none, timestamp := 0, ttl := 50 }),
              ("b", { data := 2, etag := none, timestamp := 0, ttl := 50 })],
    accessOrder := ["a", "b"], maxSize := 2, defaultTTL := 100 }

/-- Witness for C4: default capacity 100; inserting `"c"` into the full
cache evicts exactly the LRU key `"a"`; touching `"a"` via `get` first
protects it. -/
theorem c4_lru_eviction_witness :
    (LRUCache.new Nat none none).maxSize = 100 ∧
    (c4cacheW.set 10 "c" 3 none none).size ≤ 2 ∧
    mapKeys (c4cacheW.set 10 "c" 3 none none).cache =
      eraseFirst "a" (mapKeys c4cacheW.cache) ++ ["c"] ∧
    (c4cacheW.set 10 "c" 3 none none).accessOrder = ["b"] ++ ["c"] ∧
    "a" ∈ mapKeys (((c4cacheW.get 10 "a").2).set 11 "c" 3 none none).cache :=
  ⟨(c4_lru_eviction c4cacheW (by decide)).1,
   (c4_lru_eviction c4cacheW (by decide)).2.1 10 "c" 3 none none,
   ((c4_lru_eviction c4cacheW (by decide)).2.2.1 10 "c" 3 none none "a" ["b"]
     rfl (by decide) rfl).1,
   ((c4_lru_eviction c4cacheW (by decide)).2.2.1 10 "c" 3 none none "a" ["b"]
     rfl (by decide) rfl).2,
   (c4_lru_eviction c4cacheW (by decide)).2.2.2 10 11 "a" "c" 3 none none
     { data := 1, etag := none, timestamp := 0, ttl := 50 }
     rfl (by decide) (by decide) (by decide) (by decide)⟩
